import Mathlib

/-!
Verification of the vizic benchmark harness.

The code under study is the workload generator `overPop` from the
performance notebook (catalog duplication followed by random position
assignment) and the notebook-extension loader stub from the JS sources.
Python floats are modelled as rationals; the numpy global random state is
modelled as an explicit stream of draws `rng : Nat → ℚ`, where
`np.random.random_sample` consumes draws sequentially (each draw lies in
[0, 1) by numpy's contract, carried as a hypothesis where needed).
-/

namespace Vizic

/-- A catalog row: the fixed-schema scalar fields (15 columns in the
reference data), plus the two optional position columns `ra` and `dec`.
The sample catalog arrives "without position values" (`ra = dec = none`);
`overPop` assigns both columns at the end. -/
structure Row where
  fields : List ℚ
  ra : Option ℚ := none
  dec : Option ℚ := none
deriving DecidableEq

/-- A catalog: an ordered sequence of rows (a pandas DataFrame row list in
the source). -/
abbrev Catalog := List Row

/-- The duplication loop of `overPop`:
`for i in range(times): df_copy = df_copy.append(df_copy, ignore_index=True)`.
pandas `DataFrame.append` returns a new frame equal to the concatenation of
the two operands, and each iteration rebinds `df_copy` to it, so the loop
iterates `c := c ++ c`. -/
def dupLoop (c : Catalog) : Nat → Catalog
  | 0 => c
  | n + 1 => dupLoop (c ++ c) n

/-- The inflation part of `overPop` on an integer count. Python
`range(times)` is empty when `times` is negative or zero, so the loop body
runs `times.toNat` times (`Int.toNat` sends non-positive integers to 0). -/
def inflate (df : Catalog) (times : Int) : Catalog :=
  dupLoop df times.toNat

/-- The position-assignment tail of `overPop`:
`x = np.random.random_sample((rows,))*15`,
`y = np.random.random_sample((rows,))*15`,
`df_copy['ra'] = x`, `df_copy['dec'] = y`.
The `x` array consumes draws `0 .. rows-1` of the stream and the `y` array
consumes draws `rows .. 2*rows-1`; row at offset `j` from the start index
`i` receives `ra = rng (i+j) * 15` and `dec = rng (rows+i+j) * 15`. -/
def assignPos (rng : Nat → ℚ) (rows : Nat) : Nat → Catalog → Catalog
  | _, [] => []
  | i, r :: rs =>
      { r with ra := some (rng i * 15), dec := some (rng (rows + i) * 15) } ::
        assignPos rng rows (i + 1) rs

/-- `overPop df times`: copy the input, double it `times` times, then
assign fresh random positions in [0, 15) on both axes to every row. -/
def overPop (rng : Nat → ℚ) (df : Catalog) (times : Int) : Catalog :=
  let df_copy := inflate df times
  let rows := df_copy.length
  assignPos rng rows 0 df_copy

/-- Error kinds the specification names for the harness. -/
inductive VizicError where
  | sourceUnavailable
  | invalidArgument
  | ingestionError
  | tileLoadError
  | noSamplesWarning
  | emptySeries
deriving DecidableEq

/-- `overPop` in an exception embedding. The source body of `overPop`
contains no `raise` statement and no operation that can throw on any
input (`range` of a negative count is simply empty), so every execution
path returns `df_copy`; the embedding is therefore `ok` of the plain
result on every input. -/
def overPopE (rng : Nat → ℚ) (df : Catalog) (times : Int) :
    Except VizicError Catalog :=
  Except.ok (overPop rng df times)

/-- The local-variable store of `overPop`'s body: the argument binding
`df` and the local `df_copy`. Mutation is modelled by explicit state
passing over this store. -/
structure PyState where
  df : Catalog
  df_copy : Catalog
deriving DecidableEq

/-- Statement-by-statement state-passing execution of `overPop`'s body,
returning the final store together with the returned value:
1. `df_copy = df.copy()` — pandas `copy` returns an unaliased copy, so the
   store holds two independent values afterwards;
2. the duplication loop rebinds `df_copy` only;
3. `df_copy['ra'] = x; df_copy['dec'] = y` — in-place column assignment on
   the object bound to `df_copy`, which `df` does not alias;
4. `return df_copy`. -/
def overPopRun (rng : Nat → ℚ) (df0 : Catalog) (times : Int) :
    PyState × Catalog :=
  let s1 : PyState := { df := df0, df_copy := df0 }
  let s2 : PyState := { df := s1.df, df_copy := dupLoop s1.df_copy times.toNat }
  let s3 : PyState :=
    { df := s2.df, df_copy := assignPos rng s2.df_copy.length 0 s2.df_copy }
  (s3, s3.df_copy)

/-- JavaScript values relevant to the loader stub: a call to a function
whose body is empty evaluates to `undefined`. -/
inductive JsValue where
  | undefined
deriving DecidableEq

/-- The formal parameter list of `load_ipython_extension` in
`src/js/src/extension.js`: `function() {}` declares no parameters. -/
def loadIpythonParams : List String := []

/-- The exported `load_ipython_extension: function() {}` of
`src/js/src/extension.js`. Its body is empty, so calling it executes no
statement: any surrounding interpreter state `s` is returned unchanged and
the call expression evaluates to `undefined`. -/
def load_ipython_extension {α : Type} (s : α) : α × JsValue :=
  (s, JsValue.undefined)

/-- Decidable range check for a position value: the value is present and
lies in the half-open interval [0, w). -/
def posInRange (w : ℚ) : Option ℚ → Bool
  | none => false
  | some a => decide (0 ≤ a) && decide (a < w)

/-- A fixed draw stream for concrete evaluations: every draw is 1/2. -/
def rngHalf : Nat → ℚ := fun _ => 1 / 2

/-- A concrete one-row sample catalog without position values. -/
def exDf : Catalog := [{ fields := [1, 2, 3] }]

/-! ### Basic lemmas about the duplication loop -/

theorem dupLoop_length (n : Nat) :
    ∀ c : Catalog, (dupLoop c n).length = c.length * 2 ^ n := by
  induction n with
  | zero => intro c; simp [dupLoop]
  | succ n ih =>
      intro c
      show (dupLoop (c ++ c) n).length = c.length * 2 ^ (n + 1)
      rw [ih (c ++ c), List.length_append, pow_succ]
      ring

theorem dupLoop_double (n : Nat) :
    ∀ c : Catalog, dupLoop (c ++ c) n = dupLoop c n ++ dupLoop c n := by
  induction n with
  | zero => intro c; rfl
  | succ n ih =>
      intro c
      show dupLoop ((c ++ c) ++ (c ++ c)) n = dupLoop (c ++ c) n ++ dupLoop (c ++ c) n
      exact ih (c ++ c)

theorem dupLoop_succ_eq (c : Catalog) (n : Nat) :
    dupLoop c (n + 1) = dupLoop c n ++ dupLoop c n :=
  dupLoop_double n c

theorem mem_dupLoop (n : Nat) :
    ∀ {c : Catalog} {r : Row}, r ∈ dupLoop c n → r ∈ c := by
  induction n with
  | zero => intro c r h; exact h
  | succ n ih =>
      intro c r h
      have h2 : r ∈ c ++ c := ih h
      rcases List.mem_append.mp h2 with h3 | h3 <;> exact h3

/-! ### Basic lemmas about position assignment -/

theorem assignPos_length (rng : Nat → ℚ) (rows : Nat) :
    ∀ (c : Catalog) (i : Nat), (assignPos rng rows i c).length = c.length := by
  intro c
  induction c with
  | nil => intro i; rfl
  | cons r rs ih => intro i; simp [assignPos, ih]

theorem assignPos_map_fields (rng : Nat → ℚ) (rows : Nat) :
    ∀ (c : Catalog) (i : Nat),
      (assignPos rng rows i c).map Row.fields = c.map Row.fields := by
  intro c
  induction c with
  | nil => intro i; rfl
  | cons r rs ih => intro i; simp [assignPos, ih]

theorem mem_assignPos (rng : Nat → ℚ) (rows : Nat) :
    ∀ (c : Catalog) (i : Nat) (r : Row), r ∈ assignPos rng rows i c →
      ∃ j, r.ra = some (rng j * 15) ∧ r.dec = some (rng (rows + j) * 15) := by
  intro c
  induction c with
  | nil => intro i r h; simp [assignPos] at h
  | cons r0 rs ih =>
      intro i r h
      rcases List.mem_cons.mp h with h1 | h1
      · exact ⟨i, by rw [h1], by rw [h1]⟩
      · exact ih (i + 1) r h1

theorem assignPos_map_ra (rng : Nat → ℚ) (rows : Nat) :
    ∀ (c : Catalog) (i : Nat),
      (assignPos rng rows i c).map Row.ra =
        (List.range c.length).map (fun j => some (rng (i + j) * 15)) := by
  intro c
  induction c with
  | nil => intro i; rfl
  | cons r rs ih =>
      intro i
      show some (rng i * 15) :: (assignPos rng rows (i + 1) rs).map Row.ra =
        (List.range (rs.length + 1)).map (fun j => some (rng (i + j) * 15))
      rw [List.range_succ_eq_map, List.map_cons, List.map_map, ih (i + 1)]
      have hf : ((fun j => some (rng (i + j) * 15)) ∘ Nat.succ) =
          fun j => some (rng (i + 1 + j) * 15) := by
        funext j
        have h : i + Nat.succ j = i + 1 + j := by omega
        simp [Function.comp, h]
      rw [hf]
      norm_num

theorem assignPos_map_dec (rng : Nat → ℚ) (rows : Nat) :
    ∀ (c : Catalog) (i : Nat),
      (assignPos rng rows i c).map Row.dec =
        (List.range c.length).map (fun j => some (rng (rows + i + j) * 15)) := by
  intro c
  induction c with
  | nil => intro i; rfl
  | cons r rs ih =>
      intro i
      show some (rng (rows + i) * 15) :: (assignPos rng rows (i + 1) rs).map Row.dec =
        (List.range (rs.length + 1)).map (fun j => some (rng (rows + i + j) * 15))
      rw [List.range_succ_eq_map, List.map_cons, List.map_map, ih (i + 1)]
      have hf : ((fun j => some (rng (rows + i + j) * 15)) ∘ Nat.succ) =
          fun j => some (rng (rows + (i + 1) + j) * 15) := by
        funext j
        have h : rows + i + Nat.succ j = rows + (i + 1) + j := by omega
        simp [Function.comp, h]
      rw [hf]
      norm_num

theorem overPop_def (rng : Nat → ℚ) (df : Catalog) (times : Int) :
    overPop rng df times =
      assignPos rng (inflate df times).length 0 (inflate df times) := rfl

theorem overPop_length (rng : Nat → ℚ) (df : Catalog) (times : Int) :
    (overPop rng df times).length = df.length * 2 ^ times.toNat := by
  rw [overPop_def, assignPos_length, inflate, dupLoop_length]

/-! ### Claim theorems -/

/-- C1: for every catalog and every non-negative duplication count, the
duplication loop of `overPop` returns a catalog whose length is
`len(df) * 2 ^ times`, and the full `overPop` result has that length too. -/
theorem c1_inflate_length (rng : Nat → ℚ) (df : Catalog) (times : Int)
    (h : 0 ≤ times) :
    (inflate df times).length = df.length * 2 ^ times.toNat ∧
    (overPop rng df times).length = df.length * 2 ^ times.toNat := by
  refine ⟨?_, overPop_length rng df times⟩
  rw [inflate, dupLoop_length]

/-- C1 witness: at a one-row catalog and times = 2 the output has
1 * 2 ^ 2 = 4 rows. -/
theorem c1_witness :
    (0 : Int) ≤ 2 ∧
    ((inflate exDf 2).length = exDf.length * 2 ^ (2 : Int).toNat ∧
     (overPop rngHalf exDf 2).length = exDf.length * 2 ^ (2 : Int).toNat) :=
  ⟨by decide, c1_inflate_length rngHalf exDf 2 (by decide)⟩

/-- C2 counterexample: at a concrete one-row catalog and `times = -1`,
`overPop` returns `ok` of a catalog; it does not fail with
`invalidArgument` (Python `range` of a negative count is empty, and the
body has no raise). -/
theorem c2_counterexample :
    overPopE rngHalf exDf (-1) = Except.ok (overPop rngHalf exDf (-1)) ∧
    overPopE rngHalf exDf (-1) ≠ Except.error VizicError.invalidArgument := by
  refine ⟨rfl, ?_⟩
  intro h
  simp [overPopE] at h

/-- C2 amended: for every negative `times`, `overPop` does not fail: the
duplication loop runs zero iterations and the call returns `ok` of a
catalog with exactly `len(df)` rows. -/
theorem c2_amended_no_error (rng : Nat → ℚ) (df : Catalog) (times : Int)
    (h : times < 0) :
    overPopE rng df times = Except.ok (overPop rng df times) ∧
    (overPop rng df times).length = df.length := by
  refine ⟨rfl, ?_⟩
  rw [overPop_length, Int.toNat_of_nonpos (le_of_lt h)]
  simp

/-- C2 amended witness: the amended statement at times = -1 on the
concrete catalog. -/
theorem c2_amended_witness :
    (-1 : Int) < 0 ∧
    (overPopE rngHalf exDf (-1) = Except.ok (overPop rngHalf exDf (-1)) ∧
     (overPop rngHalf exDf (-1)).length = exDf.length) :=
  ⟨by decide, c2_amended_no_error rngHalf exDf (-1) (by decide)⟩

/-- C3: the inflation step is deterministic and consumes no randomness:
runs of `overPop` under any two draw streams agree on every non-position
field and on the catalog length, so all randomness is confined to the
position-assignment step. -/
theorem c3_inflation_deterministic (rng1 rng2 : Nat → ℚ) (df : Catalog)
    (times : Int) :
    (overPop rng1 df times).map Row.fields =
      (overPop rng2 df times).map Row.fields ∧
    (overPop rng1 df times).length = (overPop rng2 df times).length := by
  constructor
  · rw [overPop_def, overPop_def, assignPos_map_fields, assignPos_map_fields]
  · rw [overPop_length, overPop_length]

/-- C4: when every draw of the random stream lies in [0, 1) (the contract
of `np.random.random_sample`), every row of the `overPop` output has `ra`
present and in [0, 15) and `dec` present and in [0, 15). -/
theorem c4_positions_in_bounds (rng : Nat → ℚ) (df : Catalog) (times : Int)
    (h : ∀ n, 0 ≤ rng n ∧ rng n < 1) :
    ∀ r ∈ overPop rng df times,
      posInRange 15 r.ra = true ∧ posInRange 15 r.dec = true := by
  intro r hr
  rw [overPop_def] at hr
  obtain ⟨j, hra, hdec⟩ :=
    mem_assignPos rng (inflate df times).length (inflate df times) 0 r hr
  have hb : ∀ k, posInRange 15 (some (rng k * 15)) = true := by
    intro k
    simp only [posInRange, Bool.and_eq_true, decide_eq_true_eq]
    refine ⟨mul_nonneg (h k).1 (by norm_num), ?_⟩
    calc rng k * 15 < 1 * 15 := mul_lt_mul_of_pos_right (h k).2 (by norm_num)
      _ = 15 := by norm_num
  exact ⟨by rw [hra]; exact hb j, by rw [hdec]; exact hb _⟩

/-- C4 witness: the all-halves draw stream satisfies the [0,1) contract,
and the bound holds for the concrete run. -/
theorem c4_witness :
    (∀ n, 0 ≤ rngHalf n ∧ rngHalf n < 1) ∧
    (∀ r ∈ overPop rngHalf exDf 1,
      posInRange 15 r.ra = true ∧ posInRange 15 r.dec = true) :=
  ⟨fun n => ⟨by norm_num [rngHalf], by norm_num [rngHalf]⟩,
   c4_positions_in_bounds rngHalf exDf 1
     (fun n => ⟨by norm_num [rngHalf], by norm_num [rngHalf]⟩)⟩

/-- C5: the statement-level execution of `overPop` never touches the
caller's `df`: the final store still binds `df` to the input value (rows,
length and position fields all unchanged), and the returned catalog is the
`overPop` result, a fresh value. -/
theorem c5_no_mutation (rng : Nat → ℚ) (df : Catalog) (times : Int) :
    (overPopRun rng df times).1.df = df ∧
    (overPopRun rng df times).2 = overPop rng df times :=
  ⟨rfl, rfl⟩

/-- C6: inflation is append-only doubling: each doubling step keeps the
previous catalog as an unchanged prefix, and every row of the `overPop`
output takes its non-position fields from some row of the input. -/
theorem c6_append_only (rng : Nat → ℚ) (df : Catalog) (times : Int) :
    (∀ n : Nat, dupLoop df n <+: dupLoop df (n + 1)) ∧
    (overPop rng df times).map Row.fields ⊆ df.map Row.fields := by
  constructor
  · intro n
    rw [dupLoop_succ_eq]
    exact List.prefix_append _ _
  · intro x hx
    rw [overPop_def, assignPos_map_fields] at hx
    obtain ⟨r, hr, hx2⟩ := List.mem_map.mp hx
    have hm : r ∈ df := mem_dupLoop times.toNat hr
    exact hx2 ▸ List.mem_map_of_mem Row.fields hm

/-- C7: `times = 0` is an identity of inflation: the inflated catalog is
the input itself, and the full `overPop` at 0 keeps the length and the
ordered non-position fields of the input. -/
theorem c7_inflate_zero_identity (rng : Nat → ℚ) (df : Catalog) :
    inflate df 0 = df ∧
    (overPop rng df 0).map Row.fields = df.map Row.fields ∧
    (overPop rng df 0).length = df.length := by
  refine ⟨rfl, ?_, ?_⟩
  · rw [overPop_def, assignPos_map_fields]; rfl
  · rw [overPop_length]; simp

/-- C8: position assignment overwrites exactly `ra` and `dec` and nothing
else: the output's non-position fields equal those of the inflated
intermediate row by row, while the row at offset j gets `ra` from draw j
and `dec` from draw (rows + j), scaled into [0, 15). -/
theorem c8_only_positions_change (rng : Nat → ℚ) (df : Catalog) (times : Int) :
    (overPop rng df times).map Row.fields = (inflate df times).map Row.fields ∧
    (overPop rng df times).map Row.ra =
      (List.range (inflate df times).length).map (fun j => some (rng j * 15)) ∧
    (overPop rng df times).map Row.dec =
      (List.range (inflate df times).length).map
        (fun j => some (rng ((inflate df times).length + j) * 15)) := by
  refine ⟨?_, ?_, ?_⟩
  · rw [overPop_def, assignPos_map_fields]
  · rw [overPop_def, assignPos_map_ra]
    simp only [Nat.zero_add]
  · rw [overPop_def, assignPos_map_dec]
    simp only [Nat.add_zero]

/-- C9: for every negative `times`, `overPop` does not raise: the loop
runs zero iterations, so the result equals the `times = 0` run, has
exactly `len(df)` rows, and carries freshly drawn positions. -/
theorem c9_negative_times (rng : Nat → ℚ) (df : Catalog) (times : Int)
    (h : times < 0) :
    overPop rng df times = overPop rng df 0 ∧
    (overPop rng df times).length = df.length ∧
    (overPop rng df times).map Row.ra =
      (List.range df.length).map (fun j => some (rng j * 15)) := by
  have h0 : times.toNat = 0 := Int.toNat_of_nonpos (le_of_lt h)
  have he : inflate df times = df := by rw [inflate, h0]; rfl
  refine ⟨?_, ?_, ?_⟩
  · rw [overPop_def, overPop_def, he]; rfl
  · rw [overPop_length, h0]; simp
  · rw [overPop_def, he, assignPos_map_ra]
    simp only [Nat.zero_add]

/-- C9 witness: the negative-times behaviour at times = -2 on the
concrete catalog. -/
theorem c9_witness :
    (-2 : Int) < 0 ∧
    (overPop rngHalf exDf (-2) = overPop rngHalf exDf 0 ∧
     (overPop rngHalf exDf (-2)).length = exDf.length ∧
     (overPop rngHalf exDf (-2)).map Row.ra =
       (List.range exDf.length).map (fun j => some (rngHalf j * 15))) :=
  ⟨by decide, c9_negative_times rngHalf exDf (-2) (by decide)⟩

/-- C10: the exported `load_ipython_extension` is a no-op: it declares no
parameters, leaves any interpreter state unchanged, and the call
expression evaluates to `undefined`. -/
theorem c10_loader_noop {α : Type} (s : α) :
    load_ipython_extension s = (s, JsValue.undefined) ∧
    loadIpythonParams = [] :=
  ⟨rfl, rfl⟩

end Vizic
